import Mathlib

/-! SHA-256 demo page (`script.js`): encoders, digest normaliser, comparator, history store.

A shallow embedding of the logic of `script.js`.

* A JavaScript string is the list of its UTF-16 code units (`JsString`), so that
  `length`, `slice`, the regular-expression tests and `trim` count what the engine counts.
* An `ArrayBuffer` is a list of bytes (`Fin 256`), which is what `new Uint8Array(buf)` views.
* The page state (the DOM fields and the one `localStorage` key the script uses) is an
  explicit record, and every handler is a function on that record.
* Platform primitives (`btoa`, `JSON.parse`, `crypto.subtle.digest`, `Date.now`) are either
  modelled after their standard or taken as arguments; each such place says so.
-/

namespace PasswordHashing

/-! ## Strings -/

/-- A JavaScript string: its sequence of UTF-16 code units. -/
abbrev JsString := List Nat

/-- The code units of a string literal of the script (all literals are in the BMP). -/
def lit (s : String) : JsString := s.toList.map Char.toNat

/-- A byte of an `ArrayBuffer`, as seen through `Uint8Array`. -/
abbrev Byte := Fin 256

/-- Errors a platform call can throw. -/
inductive JsError where
  | invalidCharacterError
  | syntaxError
  | typeError
  | digestError
  deriving DecidableEq, Repr

deriving instance DecidableEq for Except

/-! ## Encoder / formatter (`script.js` lines 20-29) -/

/-- Integer `Number.prototype.toString(16)`: lowercase base-16 digits, most significant
first, no leading zeros (`"0"` for zero). -/
def toString16 (n : Nat) : JsString := (Nat.toDigits 16 n).map Char.toNat

/-- `String.prototype.padStart(targetLength, fill)` with a one-unit fill string. -/
def padStart (s : JsString) (targetLength : Nat) (fill : Nat) : JsString :=
  List.replicate (targetLength - s.length) fill ++ s

/-- `Array.prototype.join('')` on an array of strings. -/
def joinEmpty (parts : List JsString) : JsString := parts.foldr (· ++ ·) []

/-- `bytesToHex`:
`Array.from(new Uint8Array(bytes)).map(b => b.toString(16).padStart(2,'0')).join('')`. -/
def bytesToHex (bytes : List Byte) : JsString :=
  joinEmpty (bytes.map fun b => padStart (toString16 b.val) 2 '0'.toNat)

/-- The base64 alphabet of RFC 4648 section 4, indexed by sextet value. -/
def base64Alphabet : JsString :=
  lit "ABCDEFGHIJKLMNOPQRSTUVWXYZabcdefghijklmnopqrstuvwxyz0123456789+/"

/-- The code unit that encodes a sextet. -/
def sextetChar (v : Nat) : Nat := base64Alphabet.getD v 0

/-- The base64 encoding loop of `btoa` over the code units of a binary string:
three bytes give four alphabet characters, a final group of one or two bytes is padded
with `=` to four characters. -/
def base64Encode : List Nat → JsString
  | [] => []
  | [a] => [sextetChar (a / 4), sextetChar (a % 4 * 16), '='.toNat, '='.toNat]
  | [a, b] =>
    [sextetChar (a / 4), sextetChar (a % 4 * 16 + b / 16), sextetChar (b % 16 * 4), '='.toNat]
  | a :: b :: c :: rest =>
    sextetChar (a / 4) :: sextetChar (a % 4 * 16 + b / 16) ::
      sextetChar (b % 16 * 4 + c / 64) :: sextetChar (c % 64) :: base64Encode rest

/-- The platform function `btoa`: throws `InvalidCharacterError` when the argument has a code
unit above U+00FF, otherwise returns the padded standard base64 encoding of the code units
read as bytes. -/
def btoa (binary : JsString) : Except JsError JsString :=
  if binary.all (· < 256) then .ok (base64Encode binary) else .error .invalidCharacterError

/-- `bytesToBase64`: the loop `binary += String.fromCharCode(u8[i])` builds the binary
string whose code units are the bytes, then `btoa(binary)`. -/
def bytesToBase64 (bytes : List Byte) : Except JsError JsString :=
  let binary : JsString := bytes.foldl (fun acc b => acc ++ [b.val]) []
  btoa binary

/-! ## Input normaliser (`script.js` lines 115-126) -/

/-- ECMAScript `WhiteSpace` and `LineTerminator` code units, the ones `trim` strips:
TAB, LF, VT, FF, CR, SP, NBSP, U+1680, U+2000..U+200A, U+2028, U+2029, U+202F, U+205F,
U+3000 and U+FEFF. -/
def isWhiteSpace (c : Nat) : Bool :=
  (9 ≤ c && c ≤ 13) || c == 32 || c == 160 || c == 5760 || (8192 ≤ c && c ≤ 8202) ||
    c == 8232 || c == 8233 || c == 8239 || c == 8287 || c == 12288 || c == 65279

/-- `String.prototype.trim`. -/
def trim (s : JsString) : JsString :=
  ((s.dropWhile isWhiteSpace).reverse.dropWhile isWhiteSpace).reverse

/-- An item of a regular-expression character class: a range `lo-hi` or one character. -/
inductive ClassItem where
  | range (lo hi : Char)
  | single (c : Char)

/-- Whether a code unit is matched by a class item. -/
def ClassItem.test : ClassItem → Nat → Bool
  | .range lo hi, c => lo.toNat ≤ c && c ≤ hi.toNat
  | .single x, c => c == x.toNat

/-- Whether a code unit is matched by the character class `[items]`. -/
def classTest (items : List ClassItem) (c : Nat) : Bool := items.any (·.test c)

/-- Matching `[cls]{lo,hi}$` against the rest of the subject: every remaining code unit has to
be consumed by the class, at least `lo` and at most `hi` of them. -/
def matchRepeatToEnd (cls : List ClassItem) : Nat → Nat → JsString → Bool
  | lo, _, [] => lo == 0
  | _, 0, _ :: _ => false
  | lo, hi + 1, c :: rest => classTest cls c && matchRepeatToEnd cls (lo - 1) hi rest

/-- `/^[cls]{lo,hi}$/.test(s)`, no flags: the match is anchored at both ends of `s`. -/
def regexTest (cls : List ClassItem) (lo hi : Nat) (s : JsString) : Bool :=
  matchRepeatToEnd cls lo hi s

/-- The class `[0-9a-fA-F]`. -/
def hexClass : List ClassItem := [.range '0' '9', .range 'a' 'f', .range 'A' 'F']

/-- The class `[A-Za-z0-9+/=]`. -/
def b64Class : List ClassItem :=
  [.range 'A' 'Z', .range 'a' 'z', .range '0' '9', .single '+', .single '/', .single '=']

/-- `String.prototype.toLowerCase` on the code units `A`..`Z`; every other code unit is
kept. The script calls `toLowerCase` only on a string that has passed
`/^[0-9a-fA-F]{64}$/`, where all code units are ASCII and this is the whole of what
`toLowerCase` does. -/
def toLowerCaseAscii (s : JsString) : JsString :=
  s.map fun c => if 'A'.toNat ≤ c ∧ c ≤ 'Z'.toNat then c + 32 else c

/-- The `type` field of a normalised candidate. -/
inductive DigestKind where
  | hex
  | base64
  deriving DecidableEq, Repr

/-- The object `{type, value}` returned by `normalizeDigestInput`. -/
structure Candidate where
  type : DigestKind
  value : JsString
  deriving DecidableEq, Repr

/-- `normalizeDigestInput(s)`; `none` is the `null` result. -/
def normalizeDigestInput (s : JsString) : Option Candidate :=
  if s = [] then none
  else
    let cleaned := trim s
    let isHex := regexTest hexClass 64 64 cleaned
    if isHex then some { type := .hex, value := toLowerCaseAscii cleaned }
    else
      let isB64 := regexTest b64Class 43 88 cleaned
      if isB64 then some { type := .base64, value := cleaned }
      else none

/-! ## History store (`script.js` lines 69-87, 160-163) -/

/-- A history record as `doHash` and `handleFile` build it:
`{type, input, hex, b64, ts}`. -/
structure Entry where
  type : JsString
  input : JsString
  hex : JsString
  b64 : JsString
  ts : Int
  deriving DecidableEq, Repr

/-- What `JSON.parse` returns for a well-formed text, as far as the script tells values
apart: an array (of history records), or some other JSON value (object, string, number,
boolean, `null`), on which `unshift` and `forEach` are not functions. -/
inductive JsonValue where
  | array (items : List Entry)
  | nonArray
  deriving DecidableEq, Repr

/-- A string held under `HISTORY_KEY`, represented by what the script can observe of it:
it is the empty string (falsy), or a text `JSON.parse` accepts with the given value, or a
non-empty text `JSON.parse` rejects. `JSON.stringify(hist)` of an array of records is the
text that parses back to that array. -/
inductive StoredText where
  | empty
  | json (v : JsonValue)
  | malformed
  deriving DecidableEq, Repr

/-- A `li` element appended by `renderHistory`. The locale-dependent
`new Date(h.ts).toLocaleString()` is kept as the instant `date`; `label` is the rest of
`textContent` after it. -/
structure HistoryRow where
  date : Int
  label : JsString
  title : JsString
  deriving DecidableEq, Repr

/-- The part of the page the script reads and writes. -/
structure State where
  /-- Field `inputText.value`. -/
  inputText : JsString
  /-- Field `hexOut.textContent`. -/
  hexOut : JsString
  /-- Field `b64Out.textContent`. -/
  b64Out : JsString
  /-- Field `hashBtn.disabled`. -/
  hashBtnDisabled : Bool
  /-- Field `hashBtn.textContent`. -/
  hashBtnText : JsString
  /-- Field `compareInput.value`. -/
  compareInput : JsString
  /-- Field `compareResult.textContent`. -/
  compareResult : JsString
  /-- Entry `localStorage[HISTORY_KEY]`; `none` when the key is absent. -/
  storage : Option StoredText
  /-- The children of `historyList`. -/
  historyList : List HistoryRow
  /-- What `console.error` has received. -/
  consoleErrors : List JsError
  deriving DecidableEq, Repr

/-- The result of running a handler: the state it leaves, and the error that escaped it,
if any. -/
structure Outcome where
  state : State
  thrown : Option JsError
  deriving DecidableEq, Repr

/-- The expression `JSON.parse(localStorage.getItem(HISTORY_KEY) || '[]')` that opens both
`pushHistory` and `renderHistory`: an absent key (`null`) and the empty string are falsy and
replaced by `'[]'`; any other text goes to `JSON.parse`, which throws `SyntaxError` on a
malformed one. -/
def parseStored (storage : Option StoredText) : Except JsError JsonValue :=
  match storage with
  | none => .ok (.array [])
  | some .empty => .ok (.array [])
  | some (.json v) => .ok v
  | some .malformed => .error .syntaxError

/-- Loading the history: `parseStored` followed by the first use of the value as an array
(`hist.unshift`, `hist.forEach`), which throws `TypeError` on anything but an array. -/
def loadHistory (storage : Option StoredText) : Except JsError (List Entry) :=
  match parseStored storage with
  | .error e => .error e
  | .ok (.array items) => .ok items
  | .ok .nonArray => .error .typeError

/-- The `li` built for one record in `renderHistory`. -/
def renderRow (h : Entry) : HistoryRow :=
  { date := h.ts
    label := lit " — " ++ h.type ++ lit " — " ++ h.hex.take 16 ++ lit "..."
    title := lit "Hex: " ++ h.hex ++ lit "\nBase64: " ++ h.b64 ++ lit "\nInput: " ++ h.input }

/-- `renderHistory()`: parse the stored text, empty the list element, append one row per
record. -/
def renderHistory (st : State) : Outcome :=
  match loadHistory st.storage with
  | .error e => { state := st, thrown := some e }
  | .ok hist => { state := { st with historyList := hist.map renderRow }, thrown := none }

/-- `pushHistory(item)`: parse, `unshift(item)`, cut the array to 20 when longer, store
`JSON.stringify(hist)`, then `renderHistory()`. The storage quota is not modelled: `setItem`
always succeeds. -/
def pushHistory (item : Entry) (st : State) : Outcome :=
  match loadHistory st.storage with
  | .error e => { state := st, thrown := some e }
  | .ok hist₀ =>
    let hist := item :: hist₀
    let hist := if hist.length > 20 then hist.take 20 else hist
    renderHistory { st with storage := some (.json (.array hist)) }

/-- The click handler of `clearHistoryBtn`: `localStorage.removeItem(HISTORY_KEY)`, then
`renderHistory()`. -/
def clearHistoryClick (st : State) : Outcome :=
  renderHistory { st with storage := none }

/-! ## Hash operations (`script.js` lines 43-67, 99-113) -/

/-- `doHash()`, run to completion. `sha256OfString` is the platform digest of the text
(`TextEncoder` and `crypto.subtle.digest`), which may reject; `now` is `Date.now()`. -/
def doHash (sha256OfString : JsString → Except JsError (List Byte)) (now : Int)
    (st : State) : Outcome :=
  let text := st.inputText
  if text = [] then
    { state := { st with hexOut := lit "—", b64Out := lit "—" }, thrown := none }
  else
    let st₁ := { st with hashBtnDisabled := true, hashBtnText := lit "Calculating..." }
    -- try
    let tried : Outcome :=
      match sha256OfString text with
      | .error e => { state := st₁, thrown := some e }
      | .ok hashBuf =>
        let hex := bytesToHex hashBuf
        match bytesToBase64 hashBuf with
        | .error e => { state := st₁, thrown := some e }
        | .ok b64 =>
          pushHistory { type := lit "text", input := text.take 120, hex := hex, b64 := b64,
                        ts := now }
            { st₁ with hexOut := hex, b64Out := b64 }
    -- catch (e)
    let caught : State :=
      match tried.thrown with
      | none => tried.state
      | some e =>
        { tried.state with
          consoleErrors := tried.state.consoleErrors ++ [e]
          hexOut := lit "Error"
          b64Out := lit "Error" }
    -- finally
    { state := { caught with hashBtnDisabled := false, hashBtnText := lit "Hash (SHA-256)" },
      thrown := none }

/-- The file chosen in `fileInput`: its name and the bytes `readAsArrayBuffer` delivers. -/
structure PickedFile where
  name : JsString
  content : List Byte
  deriving DecidableEq, Repr

/-- `handleFile(ev)` together with the `reader.onload` callback it installs, run to
completion for a file that is read successfully. `sha256OfArrayBuffer` is the platform
digest, which may reject; `now` is `Date.now()`. The callback has no `try`: an error of the
digest call, or of `pushHistory`, escapes it. -/
def handleFile (sha256OfArrayBuffer : List Byte → Except JsError (List Byte)) (now : Int)
    (file : Option PickedFile) (st : State) : Outcome :=
  match file with
  | none => { state := st, thrown := none }
  | some f =>
    match sha256OfArrayBuffer f.content with
    | .error e => { state := st, thrown := some e }
    | .ok hashBuf =>
      let hex := bytesToHex hashBuf
      match bytesToBase64 hashBuf with
      | .error e => { state := st, thrown := some e }
      | .ok b64 =>
        pushHistory { type := lit "file", input := f.name, hex := hex, b64 := b64, ts := now }
          { st with hexOut := hex, b64Out := b64 }

/-! ## Comparator (`script.js` lines 128-145) -/

/-- The click handler of `compareBtn`. -/
def compareClick (st : State) : State :=
  let candidate := st.compareInput
  if candidate = [] then
    { st with compareResult := lit "Paste a digest to compare." }
  else
    match normalizeDigestInput candidate with
    | none =>
      { st with
        compareResult :=
          lit "Unrecognized digest format. Paste exact hex (64 hex chars) or base64." }
    | some norm =>
      let currentHex := trim st.hexOut
      let currentB64 := trim st.b64Out
      let ok : Bool :=
        if norm.type = .hex then norm.value = currentHex else norm.value = currentB64
      { st with compareResult := if ok then lit "Match ✅" else lit "No match ❌" }

/-! ## Driver for sequences of appends -/

/-- Calling `pushHistory` once per element of `items`, in order, stopping at the first call
that throws. -/
def pushHistoryAll : List Entry → State → Outcome
  | [], st => { state := st, thrown := none }
  | e :: es, st =>
    let o := pushHistory e st
    match o.thrown with
    | none => pushHistoryAll es o.state
    | some err => { state := o.state, thrown := some err }

/-! ## Reference notions used in the statements

These follow the wording of the specification, not the code. -/

/-- The lowercase hexadecimal digit of a value below 16. -/
def hexDigitLower (d : Nat) : Nat := (lit "0123456789abcdef").getD d 0

/-- The two-character, zero-padded, lowercase hexadecimal pair of a byte value. -/
def hexPair (b : Nat) : JsString := [hexDigitLower (b / 16), hexDigitLower (b % 16)]

/-- A code unit in `[0-9a-f]`. -/
def isLowerHexChar (c : Nat) : Prop :=
  ('0'.toNat ≤ c ∧ c ≤ '9'.toNat) ∨ ('a'.toNat ≤ c ∧ c ≤ 'f'.toNat)

/-- A hexadecimal digit in either case. -/
def isHexDigit (c : Nat) : Prop := c ∈ lit "0123456789abcdefABCDEF"

/-- One of the characters `A-Z`, `a-z`, `0-9`, `+`, `/`, `=`. -/
def isBase64ShapeChar (c : Nat) : Prop :=
  c ∈ lit "ABCDEFGHIJKLMNOPQRSTUVWXYZabcdefghijklmnopqrstuvwxyz0123456789+/="

/-- The trimmed string is exactly 64 hexadecimal digits. -/
def isHex64 (t : JsString) : Prop := t.length = 64 ∧ ∀ c ∈ t, isHexDigit c

/-- The trimmed string is made of base64-shape characters and is 43 to 88 long. -/
def isBase64Shape (t : JsString) : Prop :=
  (∀ c ∈ t, isBase64ShapeChar c) ∧ 43 ≤ t.length ∧ t.length ≤ 88

/-- The sextet value of an alphabet character. -/
def sextetOf (c : Nat) : Option Nat :=
  let i := base64Alphabet.indexOf c
  if i < 64 then some i else none

/-- Standard (RFC 4648 section 4) decoding of padded base64: groups of four alphabet
characters give three bytes; the last group may end in `=` (two bytes) or `==` (one byte);
anything else is rejected. -/
def base64Decode : JsString → Option (List Byte)
  | [] => some []
  | a :: b :: c :: d :: rest =>
    if rest = [] ∧ d = '='.toNat then
      if c = '='.toNat then do
        let x ← sextetOf a
        let y ← sextetOf b
        pure [Fin.ofNat (x * 4 + y / 16)]
      else do
        let x ← sextetOf a
        let y ← sextetOf b
        let z ← sextetOf c
        pure [Fin.ofNat (x * 4 + y / 16), Fin.ofNat (y % 16 * 16 + z / 4)]
    else do
      let x ← sextetOf a
      let y ← sextetOf b
      let z ← sextetOf c
      let w ← sextetOf d
      let tail ← base64Decode rest
      pure (Fin.ofNat (x * 4 + y / 16) :: Fin.ofNat (y % 16 * 16 + z / 4) ::
        Fin.ofNat (z % 4 * 64 + w) :: tail)
  | _ => none

/-- A stored text that `JSON.parse` rejects: the empty string or a malformed one. -/
def failsToParse (t : StoredText) : Prop := t = .empty ∨ t = .malformed

instance (c : Nat) : Decidable (isLowerHexChar c) := by
  unfold isLowerHexChar
  infer_instance

instance (c : Nat) : Decidable (isHexDigit c) := by
  unfold isHexDigit
  infer_instance

instance (c : Nat) : Decidable (isBase64ShapeChar c) := by
  unfold isBase64ShapeChar
  infer_instance

instance (t : JsString) : Decidable (isHex64 t) := by
  unfold isHex64
  infer_instance

instance (t : JsString) : Decidable (isBase64Shape t) := by
  unfold isBase64Shape
  infer_instance

/-! ## Concrete data for the checks -/

/-- The SHA-256 digest of the text `abc`. -/
def abcDigest : List Byte :=
  [0xba, 0x78, 0x16, 0xbf, 0x8f, 0x01, 0xcf, 0xea, 0x41, 0x41, 0x40, 0xde, 0x5d, 0xae, 0x22,
   0x23, 0xb0, 0x03, 0x61, 0xa3, 0x96, 0x17, 0x7a, 0x9c, 0xb4, 0x10, 0xff, 0x61, 0xf2, 0x00,
   0x15, 0xad]

/-- The hexadecimal form of `abcDigest`. -/
def abcHex : JsString :=
  lit "ba7816bf8f01cfea414140de5dae2223b00361a396177a9cb410ff61f20015ad"

/-- The base64 form of `abcDigest`. -/
def abcBase64 : JsString := lit "ungWv48Bz+pBQUDeXa4iI7ADYaOWF3qctBD/YfIAFa0="

/-- A pasted candidate: the digest in upper case, with surrounding whitespace. -/
def pastedUpperHex : JsString :=
  lit "  BA7816BF8F01CFEA414140DE5DAE2223B00361A396177A9CB410FF61F20015AD \n"

/-- A page on which nothing has been hashed or stored yet. -/
def freshPage : State :=
  { inputText := []
    hexOut := lit "—"
    b64Out := lit "—"
    hashBtnDisabled := false
    hashBtnText := lit "Hash (SHA-256)"
    compareInput := []
    compareResult := []
    storage := none
    historyList := []
    consoleErrors := [] }

/-- The history record number `n` of a run: only the timestamp differs. -/
def sampleEntry (n : Nat) : Entry :=
  { type := lit "text", input := lit "abc", hex := abcHex, b64 := abcBase64, ts := n }

/-- The records `e1 .. e25`, oldest first. -/
def entries25 : List Entry := (List.range 25).map fun i => sampleEntry (i + 1)

/-- A page whose stored history holds 25 records, more than the cap. -/
def overfullPage : State :=
  { freshPage with storage := some (.json (.array entries25)) }

/-- A page whose stored history text is not JSON. -/
def malformedPage : State := { freshPage with storage := some .malformed }

/-! ## Sanity checks of the embedding on concrete inputs -/

example : bytesToHex [0, 1, 15, 16, 171, 255] = lit "00010f10abff" := by decide
example : bytesToBase64 [77, 97, 110] = .ok (lit "TWFu") := by decide
example : bytesToBase64 [77, 97] = .ok (lit "TWE=") := by decide
example : bytesToBase64 [77] = .ok (lit "TQ==") := by decide
example : base64Decode (lit "TWFuTQ==") = some [77, 97, 110, 77] := by decide
example : base64Decode (lit "TWFuTQ=") = none := by decide
example : trim (lit "  ab \n") = lit "ab" := by decide
example : normalizeDigestInput (lit "  ab \n") = none := by decide
example : normalizeDigestInput [] = none := by decide
example : bytesToHex abcDigest = abcHex := by decide
example : bytesToBase64 abcDigest = .ok abcBase64 := by decide
example : normalizeDigestInput pastedUpperHex = some { type := .hex, value := abcHex } := by
  decide
example : normalizeDigestInput (lit "not a digest") = none := by decide

/-! ## Encoder: hexadecimal -/

set_option maxRecDepth 100000 in
theorem padStart_toString16_byte :
    ∀ b : Byte, padStart (toString16 b.val) 2 '0'.toNat = hexPair b.val := by
  decide

theorem bytesToHex_cons (b : Byte) (B : List Byte) :
    bytesToHex (b :: B) = hexPair b.val ++ bytesToHex B := by
  have h := padStart_toString16_byte b
  simp only [bytesToHex, joinEmpty, List.map_cons, List.foldr_cons, h]

theorem bytesToHex_length (B : List Byte) : (bytesToHex B).length = 2 * B.length := by
  induction B with
  | nil => rfl
  | cons b B ih => rw [bytesToHex_cons]; simp [hexPair, ih]; omega

theorem hexDigitLower_isLowerHexChar : ∀ d, d < 16 → isLowerHexChar (hexDigitLower d) := by
  unfold isLowerHexChar
  decide

theorem bytesToHex_chars (B : List Byte) : ∀ c ∈ bytesToHex B, isLowerHexChar c := by
  induction B with
  | nil => intro c hc; simp [bytesToHex, joinEmpty] at hc
  | cons b B ih =>
    intro c hc
    rw [bytesToHex_cons] at hc
    simp only [hexPair, List.cons_append, List.nil_append, List.mem_cons] at hc
    rcases hc with rfl | rfl | hc
    · exact hexDigitLower_isLowerHexChar _ (by omega)
    · exact hexDigitLower_isLowerHexChar _ (by omega)
    · exact ih c hc

/-- C2: `bytesToHex(B)` is the concatenation, in array order and without separators, of the
two-character zero-padded lowercase hexadecimal pair of every byte; its length is twice the
number of bytes; for 32 bytes it is 64 characters long and every character is in
`[0-9a-f]`. -/
theorem bytesToHex_spec (B : List Byte) :
    bytesToHex B = (B.map fun b => hexPair b.val).flatten ∧
    (bytesToHex B).length = 2 * B.length ∧
    (B.length = 32 → (bytesToHex B).length = 64 ∧ ∀ c ∈ bytesToHex B, isLowerHexChar c) := by
  refine ⟨?_, bytesToHex_length B, fun h => ⟨by rw [bytesToHex_length, h], bytesToHex_chars B⟩⟩
  induction B with
  | nil => rfl
  | cons b B ih => rw [bytesToHex_cons, ih]; simp

theorem bytesToHex_spec_witness :
    abcDigest.length = 32 ∧ (bytesToHex abcDigest).length = 64 ∧
      ∀ c ∈ bytesToHex abcDigest, isLowerHexChar c :=
  ⟨by decide, (bytesToHex_spec abcDigest).2.2 (by decide)⟩

/-! ## Encoder: base64 -/

theorem sextetOf_sextetChar : ∀ v, v < 64 → sextetOf (sextetChar v) = some v := by decide

theorem sextetChar_ne_pad : ∀ v, v < 64 → sextetChar v ≠ 61 := by decide

theorem sextetChar_mem : ∀ v, v < 64 → sextetChar v ∈ base64Alphabet := by decide

theorem pad_not_mem_alphabet : '='.toNat ∉ base64Alphabet := by decide

theorem binary_eq_map (B : List Byte) (acc : JsString) :
    B.foldl (fun acc b => acc ++ [b.val]) acc = acc ++ B.map Fin.val := by
  induction B generalizing acc with
  | nil => simp
  | cons b B ih => simp [ih]

theorem bytesToBase64_eq (B : List Byte) :
    bytesToBase64 B = .ok (base64Encode (B.map Fin.val)) := by
  have hall : (B.map Fin.val).all (· < 256) = true := by
    simp
  simp only [bytesToBase64, btoa, binary_eq_map, List.nil_append, hall, if_true]

theorem base64Decode_encode :
    ∀ B : List Byte, base64Decode (base64Encode (B.map Fin.val)) = some B
  | [] => rfl
  | [a] => by
    have ha := a.isLt
    simp [base64Encode, base64Decode, sextetOf_sextetChar (a.val / 4) (by omega),
      sextetOf_sextetChar (a.val % 4 * 16) (by omega)]
    apply Fin.ext
    simp [Fin.ofNat]
    omega
  | [a, b] => by
    have ha := a.isLt
    have hb := b.isLt
    simp [base64Encode, base64Decode, sextetOf_sextetChar (a.val / 4) (by omega),
      sextetOf_sextetChar (a.val % 4 * 16 + b.val / 16) (by omega),
      sextetOf_sextetChar (b.val % 16 * 4) (by omega),
      sextetChar_ne_pad (b.val % 16 * 4) (by omega)]
    constructor <;> apply Fin.ext <;> simp [Fin.ofNat] <;> omega
  | a :: b :: c :: rest => by
    have ha := a.isLt
    have hb := b.isLt
    have hc := c.isLt
    have ih := base64Decode_encode rest
    simp [base64Encode, base64Decode, sextetOf_sextetChar (a.val / 4) (by omega),
      sextetOf_sextetChar (a.val % 4 * 16 + b.val / 16) (by omega),
      sextetOf_sextetChar (b.val % 16 * 4 + c.val / 64) (by omega),
      sextetOf_sextetChar (c.val % 64) (by omega),
      sextetChar_ne_pad (c.val % 64) (by omega), ih]
    refine ⟨?_, ?_, ?_⟩ <;> apply Fin.ext <;> simp [Fin.ofNat] <;> omega

theorem base64Encode_two_mod_three :
    ∀ B : List Byte, B.length % 3 = 2 →
      ∃ body, base64Encode (B.map Fin.val) = body ++ ['='.toNat] ∧
        body.length + 1 = 4 * ((B.length + 2) / 3) ∧ ∀ c ∈ body, c ∈ base64Alphabet
  | [], h => by simp at h
  | [_], h => by simp at h
  | [a, b], _ => by
    have ha := a.isLt
    have hb := b.isLt
    refine ⟨[sextetChar (a.val / 4), sextetChar (a.val % 4 * 16 + b.val / 16),
      sextetChar (b.val % 16 * 4)], by simp [base64Encode], by simp, ?_⟩
    intro c hc
    simp only [List.mem_cons, List.mem_singleton, List.not_mem_nil, or_false] at hc
    rcases hc with rfl | rfl | rfl <;> exact sextetChar_mem _ (by omega)
  | a :: b :: c :: rest, h => by
    have ha := a.isLt
    have hb := b.isLt
    have hc := c.isLt
    have hrest : rest.length % 3 = 2 := by
      simp only [List.length_cons] at h
      omega
    obtain ⟨body, hbody, hlen, hmem⟩ := base64Encode_two_mod_three rest hrest
    refine ⟨sextetChar (a.val / 4) :: sextetChar (a.val % 4 * 16 + b.val / 16) ::
      sextetChar (b.val % 16 * 4 + c.val / 64) :: sextetChar (c.val % 64) :: body, ?_, ?_, ?_⟩
    · simp only [List.map_cons, base64Encode, hbody, List.cons_append]
    · simp only [List.length_cons]
      omega
    · intro x hx
      simp only [List.mem_cons] at hx
      rcases hx with rfl | rfl | rfl | rfl | hx
      · exact sextetChar_mem _ (by omega)
      · exact sextetChar_mem _ (by omega)
      · exact sextetChar_mem _ (by omega)
      · exact sextetChar_mem _ (by omega)
      · exact hmem x hx

/-- C3: for a 32-byte sequence `bytesToBase64` returns (without throwing) a string of length
44 made of base64 alphabet characters and `=`, in which `=` occurs exactly once, as the last
character, and whose standard base64 decoding is the byte sequence. -/
theorem bytesToBase64_digest (B : List Byte) (hB : B.length = 32) :
    ∃ s, bytesToBase64 B = .ok s ∧ s.length = 44 ∧
      (∀ c ∈ s, c ∈ base64Alphabet ∨ c = '='.toNat) ∧
      s.getLast? = some '='.toNat ∧ s.count '='.toNat = 1 ∧
      base64Decode s = some B := by
  obtain ⟨body, hbody, hlen, hmem⟩ := base64Encode_two_mod_three B (by rw [hB])
  refine ⟨base64Encode (B.map Fin.val), bytesToBase64_eq B, ?_, ?_, ?_, ?_,
    base64Decode_encode B⟩
  · rw [hbody, List.length_append, List.length_singleton, hlen, hB]
  · intro c hc
    rw [hbody, List.mem_append, List.mem_singleton] at hc
    exact hc.imp (hmem c) id
  · rw [hbody, List.getLast?_append]
    rfl
  · rw [hbody, List.count_append]
    have h0 : body.count '='.toNat = 0 :=
      List.count_eq_zero.mpr fun h => pad_not_mem_alphabet (hmem _ h)
    rw [h0]
    rfl

theorem bytesToBase64_digest_witness :
    abcDigest.length = 32 ∧
    ∃ s, bytesToBase64 abcDigest = .ok s ∧ s.length = 44 ∧
      (∀ c ∈ s, c ∈ base64Alphabet ∨ c = '='.toNat) ∧
      s.getLast? = some '='.toNat ∧ s.count '='.toNat = 1 ∧
      base64Decode s = some abcDigest :=
  ⟨by decide, bytesToBase64_digest abcDigest (by decide)⟩

/-! ## Input normaliser -/

theorem matchRepeatToEnd_iff (cls : List ClassItem) (s : JsString) :
    ∀ lo hi, matchRepeatToEnd cls lo hi s = true ↔
      lo ≤ s.length ∧ s.length ≤ hi ∧ ∀ c ∈ s, classTest cls c = true := by
  induction s with
  | nil => intro lo hi; simp [matchRepeatToEnd]
  | cons c rest ih =>
    intro lo hi
    cases hi with
    | zero => simp [matchRepeatToEnd]
    | succ hi =>
      simp only [matchRepeatToEnd, Bool.and_eq_true, ih, List.length_cons, List.mem_cons,
        forall_eq_or_imp]
      constructor
      · rintro ⟨hc, hlo, hhi, hall⟩
        exact ⟨by omega, by omega, hc, hall⟩
      · rintro ⟨hlo, hhi, hc, hall⟩
        exact ⟨hc, by omega, by omega, hall⟩

theorem regexTest_iff (cls : List ClassItem) (lo hi : Nat) (s : JsString) :
    regexTest cls lo hi s = true ↔
      lo ≤ s.length ∧ s.length ≤ hi ∧ ∀ c ∈ s, classTest cls c = true :=
  matchRepeatToEnd_iff cls s lo hi

theorem classTest_hexClass (c : Nat) : classTest hexClass c = true ↔ isHexDigit c := by
  simp [classTest, hexClass, ClassItem.test, isHexDigit, lit]
  omega

theorem classTest_b64Class (c : Nat) : classTest b64Class c = true ↔ isBase64ShapeChar c := by
  simp [classTest, b64Class, ClassItem.test, isBase64ShapeChar, lit]
  omega

theorem regexTest_hex_iff (t : JsString) : regexTest hexClass 64 64 t = true ↔ isHex64 t := by
  rw [regexTest_iff, isHex64]
  simp only [classTest_hexClass]
  constructor
  · rintro ⟨h₁, h₂, h₃⟩
    exact ⟨by omega, h₃⟩
  · rintro ⟨h₁, h₂⟩
    exact ⟨by omega, by omega, h₂⟩

theorem regexTest_b64_iff (t : JsString) :
    regexTest b64Class 43 88 t = true ↔ isBase64Shape t := by
  rw [regexTest_iff, isBase64Shape]
  simp only [classTest_b64Class]
  tauto

theorem isHexDigit_isBase64ShapeChar (c : Nat) (h : isHexDigit c) : isBase64ShapeChar c := by
  rw [← classTest_hexClass] at h
  rw [← classTest_b64Class]
  simp [classTest, hexClass, b64Class, ClassItem.test] at h ⊢
  omega

theorem toLowerCaseAscii_lowerHex (c : Nat) (h : isHexDigit c) :
    isLowerHexChar (if 'A'.toNat ≤ c ∧ c ≤ 'Z'.toNat then c + 32 else c) := by
  rw [← classTest_hexClass] at h
  simp [classTest, hexClass, ClassItem.test] at h
  simp only [isLowerHexChar, Char.reduceToNat]
  split <;> omega

theorem normalizeDigestInput_of_ne_nil (s : JsString) (hs : s ≠ []) :
    normalizeDigestInput s =
      if regexTest hexClass 64 64 (trim s) then
        some { type := .hex, value := toLowerCaseAscii (trim s) }
      else if regexTest b64Class 43 88 (trim s) then
        some { type := .base64, value := trim s }
      else none := by
  simp [normalizeDigestInput, hs]

theorem trim_nil : trim [] = [] := rfl

/-- C4: when the trimmed input is exactly 64 hexadecimal digits (either case),
`normalizeDigestInput` returns the hex-tagged candidate whose value is the lowercased
trimmed string, a string of 64 characters of `[0-9a-f]`; the hex test wins although the
trimmed string also passes the base64 test. -/
theorem normalizeDigestInput_hex (s : JsString) (hlen : (trim s).length = 64)
    (hhex : ∀ c ∈ trim s, isHexDigit c) :
    normalizeDigestInput s = some { type := .hex, value := toLowerCaseAscii (trim s) } ∧
    (toLowerCaseAscii (trim s)).length = 64 ∧
    (∀ c ∈ toLowerCaseAscii (trim s), isLowerHexChar c) ∧
    regexTest b64Class 43 88 (trim s) = true := by
  have hs : s ≠ [] := by
    rintro rfl
    simp [trim_nil] at hlen
  have hre : regexTest hexClass 64 64 (trim s) = true :=
    (regexTest_hex_iff _).mpr ⟨hlen, hhex⟩
  refine ⟨?_, ?_, ?_, ?_⟩
  · rw [normalizeDigestInput_of_ne_nil s hs, hre]
    rfl
  · simp [toLowerCaseAscii, hlen]
  · intro c hc
    simp only [toLowerCaseAscii, List.mem_map] at hc
    obtain ⟨x, hx, rfl⟩ := hc
    exact toLowerCaseAscii_lowerHex x (hhex x hx)
  · rw [regexTest_b64_iff]
    exact ⟨fun c hc => isHexDigit_isBase64ShapeChar c (hhex c hc), by omega, by omega⟩

theorem normalizeDigestInput_hex_witness :
    (trim pastedUpperHex).length = 64 ∧ (∀ c ∈ trim pastedUpperHex, isHexDigit c) ∧
    normalizeDigestInput pastedUpperHex =
      some { type := .hex, value := toLowerCaseAscii (trim pastedUpperHex) } ∧
    toLowerCaseAscii (trim pastedUpperHex) = abcHex :=
  ⟨by decide, by decide,
    (normalizeDigestInput_hex pastedUpperHex (by decide) (by decide)).1, by decide⟩

theorem dropWhile_all (p : Nat → Bool) (s : JsString) (h : ∀ c ∈ s, p c = true) :
    s.dropWhile p = [] := by
  induction s with
  | nil => rfl
  | cons c rest ih =>
    have hc := h c (List.mem_cons_self _ _)
    simp only [List.dropWhile_cons, hc, if_true]
    exact ih fun x hx => h x (List.mem_cons_of_mem _ hx)

theorem trim_whitespace_only (s : JsString) (h : ∀ c ∈ s, isWhiteSpace c = true) :
    trim s = [] := by
  simp [trim, dropWhile_all isWhiteSpace s h]

/-- C5: when the trimmed input `t` is not 64 hexadecimal digits, `normalizeDigestInput`
returns the base64-tagged candidate with value `t` exactly when `t` consists of characters
`A-Z a-z 0-9 + / =` and is 43 to 88 long, and returns `null` in every other case; the
empty and the whitespace-only strings give `null`. -/
theorem normalizeDigestInput_not_hex (s : JsString) (hnot : ¬ isHex64 (trim s)) :
    (normalizeDigestInput s = some { type := .base64, value := trim s } ↔
      isBase64Shape (trim s)) ∧
    (¬ isBase64Shape (trim s) → normalizeDigestInput s = none) ∧
    ((∀ c ∈ s, isWhiteSpace c = true) → normalizeDigestInput s = none) := by
  have hre : regexTest hexClass 64 64 (trim s) = false := by
    rw [← Bool.not_eq_true, regexTest_hex_iff]
    exact hnot
  by_cases hs : s = []
  · subst hs
    have h0 : ¬ isBase64Shape (trim []) := by
      simp [isBase64Shape, trim_nil]
    refine ⟨⟨fun h => ?_, fun h => absurd h h0⟩, fun _ => rfl, fun _ => rfl⟩
    simp [normalizeDigestInput] at h
  · rw [normalizeDigestInput_of_ne_nil s hs, hre]
    by_cases hb : isBase64Shape (trim s)
    · have hb2 : regexTest b64Class 43 88 (trim s) = true := (regexTest_b64_iff _).mpr hb
      refine ⟨by simp [hb2, hb], fun h => absurd hb h, fun hws => ?_⟩
      rw [trim_whitespace_only s hws] at hb
      simp [isBase64Shape] at hb
    · have hb2 : regexTest b64Class 43 88 (trim s) = false := by
        rw [← Bool.not_eq_true, regexTest_b64_iff]
        exact hb
      simp [hb2, hb]

theorem normalizeDigestInput_not_hex_witness :
    ¬ isHex64 (trim abcBase64) ∧ isBase64Shape (trim abcBase64) ∧
    normalizeDigestInput abcBase64 = some { type := .base64, value := trim abcBase64 } ∧
    trim abcBase64 = abcBase64 :=
  ⟨by decide, by decide,
    (normalizeDigestInput_not_hex abcBase64 (by decide)).1.mpr (by decide), by decide⟩

/-! ## Comparator on the digest just shown -/

theorem dropWhile_head_false (p : Nat → Bool) (c : Nat) (rest : JsString) (h : p c = false) :
    (c :: rest).dropWhile p = c :: rest := by
  simp [List.dropWhile_cons, h]

theorem trim_eq_self (s : JsString) (h : ∀ c ∈ s, isWhiteSpace c = false) : trim s = s := by
  have h₁ : s.dropWhile isWhiteSpace = s := by
    cases s with
    | nil => rfl
    | cons c rest => exact dropWhile_head_false _ c rest (h c (List.mem_cons_self _ _))
  have h₂ : s.reverse.dropWhile isWhiteSpace = s.reverse := by
    cases hr : s.reverse with
    | nil => rfl
    | cons c rest =>
      have hc : c ∈ s := by
        rw [← List.mem_reverse, hr]
        exact List.mem_cons_self _ _
      exact dropWhile_head_false _ c rest (h c hc)
  rw [trim, h₁, h₂, List.reverse_reverse]

theorem isLowerHexChar_isHexDigit (c : Nat) (h : isLowerHexChar c) : isHexDigit c := by
  rw [← classTest_hexClass]
  simp only [isLowerHexChar, Char.reduceToNat] at h
  simp [classTest, hexClass, ClassItem.test]
  omega

theorem isBase64ShapeChar_not_whiteSpace (c : Nat) (h : isBase64ShapeChar c) :
    isWhiteSpace c = false := by
  rw [← classTest_b64Class] at h
  simp [classTest, b64Class, ClassItem.test] at h
  simp [isWhiteSpace]
  omega

theorem alphabet_isBase64ShapeChar : ∀ c ∈ base64Alphabet, isBase64ShapeChar c := by
  unfold isBase64ShapeChar
  decide

theorem pad_isBase64ShapeChar : isBase64ShapeChar '='.toNat := by
  unfold isBase64ShapeChar
  decide

theorem toLowerCaseAscii_eq_self (s : JsString) (h : ∀ c ∈ s, isLowerHexChar c) :
    toLowerCaseAscii s = s := by
  unfold toLowerCaseAscii
  conv => rhs; rw [← List.map_id s]
  apply List.map_congr_left
  intro c hc
  have := h c hc
  simp only [isLowerHexChar, Char.reduceToNat] at this
  simp only [Char.reduceToNat, id_eq, ite_eq_right_iff]
  omega

theorem compareClick_match (st : State) (norm : Candidate) (hne : st.compareInput ≠ [])
    (hnorm : normalizeDigestInput st.compareInput = some norm)
    (hval : norm.value = if norm.type = .hex then trim st.hexOut else trim st.b64Out) :
    (compareClick st).compareResult = lit "Match ✅" := by
  simp only [compareClick, hne, if_false, hnorm]
  by_cases ht : norm.type = .hex
  · simp [ht] at hval ⊢
    simp [hval]
  · simp [ht] at hval ⊢
    simp [hval]

/-- C1: for a 32-byte digest `B` whose encodings `h = bytesToHex(B)` and
`b = bytesToBase64(B)` are the ones shown in the output fields, `normalizeDigestInput(h)`
is the hex candidate with value `h`, `normalizeDigestInput(b)` is the base64 candidate with
value `b`, and the compare handler reports a match for both pasted candidates. -/
theorem compare_matches_current_digest (B : List Byte) (hB : B.length = 32) (st : State) :
    ∃ b, bytesToBase64 B = .ok b ∧
      normalizeDigestInput (bytesToHex B) = some { type := .hex, value := bytesToHex B } ∧
      normalizeDigestInput b = some { type := .base64, value := b } ∧
      (compareClick { st with hexOut := bytesToHex B, b64Out := b,
                              compareInput := bytesToHex B }).compareResult
        = lit "Match ✅" ∧
      (compareClick { st with hexOut := bytesToHex B, b64Out := b,
                              compareInput := b }).compareResult
        = lit "Match ✅" := by
  obtain ⟨body, hbody, hbodylen, hbodymem⟩ := base64Encode_two_mod_three B (by rw [hB])
  have hb := bytesToBase64_eq B
  generalize base64Encode (B.map Fin.val) = b at hbody hb
  have hblen : b.length = 44 := by
    rw [hbody, List.length_append, List.length_singleton, hbodylen, hB]
  have hhlen : (bytesToHex B).length = 64 := by rw [bytesToHex_length, hB]
  have hhchars := bytesToHex_chars B
  have hhhex : ∀ c ∈ bytesToHex B, isHexDigit c := fun c hc =>
    isLowerHexChar_isHexDigit c (hhchars c hc)
  have hbshape : ∀ c ∈ b, isBase64ShapeChar c := by
    intro c hc
    rw [hbody, List.mem_append, List.mem_singleton] at hc
    rcases hc with hc | rfl
    · exact alphabet_isBase64ShapeChar c (hbodymem c hc)
    · exact pad_isBase64ShapeChar
  have hhtrim : trim (bytesToHex B) = bytesToHex B :=
    trim_eq_self _ fun c hc =>
      isBase64ShapeChar_not_whiteSpace c (isHexDigit_isBase64ShapeChar c (hhhex c hc))
  have hbtrim : trim b = b :=
    trim_eq_self _ fun c hc => isBase64ShapeChar_not_whiteSpace c (hbshape c hc)
  have hhne : bytesToHex B ≠ [] := by
    intro h
    rw [h] at hhlen
    simp at hhlen
  have hbne : b ≠ [] := by
    intro h
    rw [h] at hblen
    simp at hblen
  have hnh : normalizeDigestInput (bytesToHex B)
      = some { type := .hex, value := bytesToHex B } := by
    have hre : regexTest hexClass 64 64 (bytesToHex B) = true :=
      (regexTest_hex_iff _).mpr ⟨hhlen, hhhex⟩
    rw [normalizeDigestInput_of_ne_nil _ hhne, hhtrim, hre,
      toLowerCaseAscii_eq_self _ hhchars]
    rfl
  have hnb : normalizeDigestInput b = some { type := .base64, value := b } := by
    have hre : regexTest hexClass 64 64 b = false := by
      rw [← Bool.not_eq_true, regexTest_hex_iff]
      intro h
      have := h.1
      omega
    have hre2 : regexTest b64Class 43 88 b = true :=
      (regexTest_b64_iff _).mpr ⟨hbshape, by omega, by omega⟩
    rw [normalizeDigestInput_of_ne_nil _ hbne, hbtrim, hre, hre2]
    rfl
  refine ⟨b, hb, hnh, hnb, ?_, ?_⟩
  · exact compareClick_match _ _ hhne hnh (by simp [hhtrim])
  · exact compareClick_match _ _ hbne hnb (by simp [hbtrim])

theorem compare_matches_current_digest_witness :
    abcDigest.length = 32 ∧
    ∃ b, bytesToBase64 abcDigest = .ok b ∧
      normalizeDigestInput (bytesToHex abcDigest)
        = some { type := .hex, value := bytesToHex abcDigest } ∧
      normalizeDigestInput b = some { type := .base64, value := b } ∧
      (compareClick { freshPage with hexOut := bytesToHex abcDigest, b64Out := b,
                                     compareInput := bytesToHex abcDigest }).compareResult
        = lit "Match ✅" ∧
      (compareClick { freshPage with hexOut := bytesToHex abcDigest, b64Out := b,
                                     compareInput := b }).compareResult
        = lit "Match ✅" :=
  ⟨by decide, compare_matches_current_digest abcDigest (by decide) freshPage⟩

/-! ## History store -/

theorem loadHistory_json_array (L : List Entry) :
    loadHistory (some (.json (.array L))) = .ok L := rfl

theorem renderHistory_of_load (st : State) (L : List Entry)
    (h : loadHistory st.storage = .ok L) :
    renderHistory st = { state := { st with historyList := L.map renderRow }, thrown := none } := by
  simp [renderHistory, h]

theorem pushHistory_of_load (e : Entry) (st : State) (L : List Entry)
    (h : loadHistory st.storage = .ok L) :
    pushHistory e st =
      { state := { st with storage := some (.json (.array ((e :: L).take 20)))
                           historyList := ((e :: L).take 20).map renderRow }
        thrown := none } := by
  have hcut : (if (e :: L).length > 20 then (e :: L).take 20 else e :: L) = (e :: L).take 20 := by
    split
    · rfl
    · exact (List.take_of_length_le (by omega)).symm
  simp only [pushHistory, h, hcut]
  rw [renderHistory_of_load _ ((e :: L).take 20) (loadHistory_json_array _)]

theorem take_append_take (A X : List Entry) (n : Nat) :
    (A ++ X.take n).take n = (A ++ X).take n := by
  rw [List.take_append_eq_append_take, List.take_append_eq_append_take, List.take_take]
  congr 2
  omega

theorem pushHistoryAll_of_load :
    ∀ (es : List Entry) (st : State) (L : List Entry), loadHistory st.storage = .ok L →
      (pushHistoryAll es st).thrown = none ∧
      loadHistory (pushHistoryAll es st).state.storage =
        .ok (if es = [] then L else (es.reverse ++ L).take 20)
  | [], st, L, h => ⟨rfl, by simpa [pushHistoryAll] using h⟩
  | e :: es, st, L, h => by
    have hp := pushHistory_of_load e st L h
    have ih := pushHistoryAll_of_load es (pushHistory e st).state ((e :: L).take 20)
      (by rw [hp]; rfl)
    have hstep : pushHistoryAll (e :: es) st = pushHistoryAll es (pushHistory e st).state := by
      simp only [pushHistoryAll, hp]
    rw [hstep]
    refine ⟨ih.1, ?_⟩
    rw [ih.2]
    by_cases hes : es = []
    · simp [hes]
    · simp only [hes, if_false, List.cons_ne_nil, take_append_take, List.reverse_cons,
        List.append_assoc, List.singleton_append]

theorem reverse_take_eq (es : List Entry) (n : Nat) :
    es.reverse.take n = (es.drop (es.length - n)).reverse := by
  rw [List.reverse_drop]
  by_cases hn : n ≤ es.length
  · congr 1
    omega
  · rw [List.take_of_length_le (by simp; omega), List.take_of_length_le (by simp; omega)]

/-- C6: appending `e1..en` one after another with `pushHistory`, starting from a store whose
history loads as empty, never throws and leaves as persisted log the last `min(n, 20)`
entries, newest first; 25 appends leave exactly `e25` down to `e6`. -/
theorem pushHistoryAll_from_empty (es : List Entry) (st : State)
    (h : loadHistory st.storage = .ok []) :
    (pushHistoryAll es st).thrown = none ∧
    loadHistory (pushHistoryAll es st).state.storage =
      .ok (es.drop (es.length - min es.length 20)).reverse ∧
    ((es.drop (es.length - min es.length 20)).reverse).length = min es.length 20 ∧
    (es.length = 25 →
      loadHistory (pushHistoryAll es st).state.storage = .ok (es.drop 5).reverse) := by
  obtain ⟨h₁, h₂⟩ := pushHistoryAll_of_load es st [] h
  have h₃ : loadHistory (pushHistoryAll es st).state.storage =
      .ok (es.drop (es.length - min es.length 20)).reverse := by
    rw [h₂]
    by_cases hes : es = []
    · simp [hes]
    · simp only [hes, if_false, List.append_nil, reverse_take_eq]
      congr 3
      omega
  refine ⟨h₁, h₃, ?_, fun h25 => ?_⟩
  · simp only [List.length_reverse, List.length_drop]
    omega
  · rw [h₃, h25]
    rfl

theorem pushHistoryAll_from_empty_witness :
    loadHistory freshPage.storage = .ok [] ∧ entries25.length = 25 ∧
    loadHistory (pushHistoryAll entries25 freshPage).state.storage =
      .ok (entries25.drop 5).reverse ∧
    (entries25.drop 5).reverse = (List.range 20).map fun i => sampleEntry (25 - i) :=
  ⟨rfl, by decide, (pushHistoryAll_from_empty entries25 freshPage rfl).2.2.2 (by decide),
    by decide⟩

theorem take_cons_succ_tail (e : Entry) (L : List Entry) :
    ((e :: L).take 20).tail = L.take 19 := rfl

/-- C7: when the persisted history loads as a list `L` of any length, `pushHistory(e)` does
not throw and persists the first 20 elements of `e` followed by `L`: at most 20 entries, `e`
first, then a prefix of `L` unchanged and in order. After the clear handler the persisted
log is empty, so the bound of 20 holds after every mutation. -/
theorem pushHistory_persists_take_20 (e : Entry) (st : State) (L : List Entry)
    (h : loadHistory st.storage = .ok L) :
    (pushHistory e st).thrown = none ∧
    (pushHistory e st).state.storage = some (.json (.array ((e :: L).take 20))) ∧
    loadHistory (pushHistory e st).state.storage = .ok ((e :: L).take 20) ∧
    ((e :: L).take 20).length ≤ 20 ∧
    (e :: L).take 20 = e :: L.take 19 ∧
    (∀ st₀ : State, ∃ M, loadHistory (clearHistoryClick st₀).state.storage = .ok M ∧
      M.length ≤ 20) := by
  rw [pushHistory_of_load e st L h]
  refine ⟨rfl, rfl, rfl, ?_, rfl, fun st₀ => ⟨[], rfl, by simp⟩⟩
  rw [List.length_take]
  omega

theorem pushHistory_persists_take_20_witness :
    loadHistory overfullPage.storage = .ok entries25 ∧
    (pushHistory (sampleEntry 26) overfullPage).thrown = none ∧
    loadHistory (pushHistory (sampleEntry 26) overfullPage).state.storage =
      .ok ((sampleEntry 26 :: entries25).take 20) ∧
    ((sampleEntry 26 :: entries25).take 20).length = 20 :=
  have h := pushHistory_persists_take_20 (sampleEntry 26) overfullPage entries25 rfl
  ⟨rfl, h.1, h.2.2.1, by decide⟩

/-- C8 (refuted as stated): with a malformed text under the history key, which is a stored
content that fails to parse, loading the history throws `SyntaxError` instead of yielding the
empty sequence; `renderHistory` and `pushHistory` let the error escape and change nothing. -/
theorem load_malformed_throws :
    failsToParse .malformed ∧
    loadHistory malformedPage.storage = .error .syntaxError ∧
    loadHistory malformedPage.storage ≠ .ok [] ∧
    renderHistory malformedPage = { state := malformedPage, thrown := some .syntaxError } ∧
    pushHistory (sampleEntry 1) malformedPage =
      { state := malformedPage, thrown := some .syntaxError } := by
  refine ⟨Or.inr rfl, rfl, ?_, rfl, rfl⟩
  intro h
  cases h

/-- C8 (amended): if nothing is stored under the history key, or the stored text is the
empty string, loading the history yields the empty sequence and neither `renderHistory` nor
`pushHistory` throws; for a non-empty stored text that fails to parse, the load throws
`SyntaxError`, which `renderHistory` and `pushHistory` let escape without changing the
page. -/
theorem load_absent_or_empty (storage : Option StoredText) :
    ((storage = none ∨ storage = some .empty) →
      loadHistory storage = .ok [] ∧
      ∀ (st : State) (e : Entry), st.storage = storage →
        (renderHistory st).thrown = none ∧ (pushHistory e st).thrown = none) ∧
    (storage = some .malformed →
      loadHistory storage = .error .syntaxError ∧
      ∀ (st : State) (e : Entry), st.storage = storage →
        renderHistory st = { state := st, thrown := some .syntaxError } ∧
        pushHistory e st = { state := st, thrown := some .syntaxError }) := by
  refine ⟨fun h => ?_, fun h => ?_⟩
  swap
  · subst h
    refine ⟨rfl, fun st e hst => ?_⟩
    simp [renderHistory, pushHistory, loadHistory, parseStored, hst]
  have hl : loadHistory storage = .ok [] := by
    rcases h with rfl | rfl <;> rfl
  refine ⟨hl, fun st e hst => ?_⟩
  rw [← hst] at hl
  rw [renderHistory_of_load st [] hl, pushHistory_of_load e st [] hl]
  exact ⟨rfl, rfl⟩

theorem load_absent_or_empty_witness :
    (freshPage.storage = none ∨ freshPage.storage = some .empty) ∧
    loadHistory freshPage.storage = .ok [] ∧
    (renderHistory freshPage).thrown = none ∧
    (pushHistory (sampleEntry 1) freshPage).thrown = none ∧
    malformedPage.storage = some .malformed ∧
    loadHistory malformedPage.storage = .error .syntaxError :=
  have h := (load_absent_or_empty freshPage.storage).1 (Or.inl rfl)
  have k := (load_absent_or_empty malformedPage.storage).2 rfl
  ⟨Or.inl rfl, h.1, (h.2 freshPage (sampleEntry 1) rfl).1, (h.2 freshPage (sampleEntry 1) rfl).2,
    rfl, k.1⟩

/-- C10: whatever the prior state, after the clear-history handler the history key is absent
from storage (not set to an empty array), no error escapes, the list element is empty, and
loading the history yields the empty sequence. -/
theorem clearHistoryClick_removes_key (st : State) :
    (clearHistoryClick st).thrown = none ∧
    (clearHistoryClick st).state.storage = none ∧
    (clearHistoryClick st).state.historyList = [] ∧
    loadHistory (clearHistoryClick st).state.storage = .ok [] :=
  ⟨rfl, rfl, rfl, rfl⟩

/-! ## Hash operations when the digest call fails -/

/-- For `doHash` with non-empty text: when the digest call rejects, the error is caught and
logged, both output fields show `Error`, the button is enabled again and nothing escapes. -/
theorem doHash_digest_error (now : Int) (st : State) (err : JsError)
    (htext : st.inputText ≠ []) :
    doHash (fun _ => .error err) now st =
      { state := { st with
                   consoleErrors := st.consoleErrors ++ [err]
                   hexOut := lit "Error"
                   b64Out := lit "Error"
                   hashBtnDisabled := false
                   hashBtnText := lit "Hash (SHA-256)" }
        thrown := none } := by
  simp [doHash, htext]

/-- C9 (fails on the file path): when the digest call rejects inside the `onload` callback
installed by `handleFile`, the error escapes the callback and the page state, output fields
included, is left exactly as it was: no `Error` placeholder is written. -/
theorem handleFile_digest_error_escapes (now : Int) (f : PickedFile) (st : State)
    (err : JsError) :
    handleFile (fun _ => .error err) now (some f) st = { state := st, thrown := some err } := by
  rfl

end PasswordHashing
